import Mathlib

set_option maxRecDepth 8000

/-! Verification of the RAG ingestion-and-retrieval pipeline

Shallow embedding of the repository's core pipeline:

* `data_loder.py` — `embed_texts` (batched embedding with validation).
* `main.py` — `upsert_step` of `rag_ingest_pdf` (id derivation via `uuid.uuid5`
  over `f"{source_id}:{i}"`, payload construction, upsert), and `rag_query_pdf`
  (question validation, embed-and-search, empty-context fallback, synthesis).
* `vectore_db.py` — `QdrantStorage.__init__`, `.upsert`, `.search`.

Embedding vectors are ordered sequences of numeric components; the component
type is modelled as `Int` (the claims under verification never depend on the
numeric values of components, only on counts and lengths).  The external
Qdrant engine is modelled at its documented interface: `upsert` writes or
overwrites stored points keyed by `id`; `query_points` returns a list of at
most `top_k` matched points (the matched list is a parameter of the model).
The external embedding provider is a parameter `provider` mapping a batch of
texts to a list of vectors, and the generative model a parameter
`llm : String → String`.
-/

namespace RAG

/-- The constant `EMBED_DIM = 3072` from `data_loder.py`. -/
def EMBED_DIM : Nat := 3072

/-- An embedding vector: ordered sequence of numeric components. -/
abbrev Vec := List Int

/-- Errors raised by the pipeline code (`ValueError`/`RuntimeError`/`IndexError`
in Python, identified by their message). -/
inductive RAGErr where
  /-- Python `ValueError("embed_texts received empty input")` -/
  | invalidInput
  /-- Python `RuntimeError("Embedding count mismatch")` -/
  | countMismatch
  /-- Python `RuntimeError("Embedding dimension mismatch")` -/
  | dimensionMismatch
  /-- Python `IndexError` from out-of-range list indexing -/
  | indexError
  deriving DecidableEq, Repr

/-- The consecutive slices `ts[0:bs], ts[bs:2*bs], …` taken by the loop
`for i in range(0, len(texts), batch_size)` in `embed_texts`.
For `bs = 0` the Python loop would not terminate (in fact `range` raises);
the model returns `[]`, and every theorem below assumes `0 < bs`. -/
def chunksOfAux (bs : Nat) : Nat → List α → List (List α)
  | _, [] => []
  | 0, _ :: _ => []
  | fuel + 1, t :: rest =>
    if bs = 0 then []
    else (t :: rest).take bs :: chunksOfAux bs fuel ((t :: rest).drop bs)

/-- Structural recursion over the input length (the fuel argument of
`chunksOfAux` is an evaluation bound, always sufficient at `ts.length`). -/
def chunksOf (bs : Nat) (ts : List α) : List (List α) :=
  chunksOfAux bs ts.length ts

/-- The function `embed_texts` from `data_loder.py`: raises `InvalidInput` on empty input,
issues one provider call per consecutive batch of at most `batch_size` texts,
concatenates the returned vectors in order, raises `CountMismatch` when the
total number of vectors differs from the number of texts, and raises
`DimensionMismatch` when the length of the FIRST returned vector differs from
`EMBED_DIM` (the Python code checks `len(all_embeddings[0])` only). -/
def embed_texts (provider : List String → List Vec) (texts : List String)
    (batch_size : Nat) : Except RAGErr (List Vec) :=
  if texts = [] then .error .invalidInput
  else
    let all_embeddings := (chunksOf batch_size texts).flatMap provider
    if all_embeddings.length ≠ texts.length then .error .countMismatch
    else if (all_embeddings.headD []).length ≠ EMBED_DIM then
      .error .dimensionMismatch
    else .ok all_embeddings

/-! ## Identity scheme: `uuid.uuid5(uuid.NAMESPACE_URL, f"{source_id}:{i}")`

`uuid5` (RFC 4122, name-based, SHA-1): the id is the SHA-1 digest of the
namespace bytes followed by the UTF-8 bytes of the name, truncated to 16
bytes, with the version nibble set to 5 and the RFC 4122 variant bits set,
rendered as the standard dashed lowercase-hex string.  32-bit words are
modelled as `Nat` reduced `% 2 ^ 32`. -/

/-- Left-rotation of a 32-bit word. -/
def rotl (n w : Nat) : Nat := ((w <<< n) ||| (w >>> (32 - n))) % 2 ^ 32

/-- Big-endian 4-byte rendering of a 32-bit word. -/
def be32 (w : Nat) : List Nat :=
  [w >>> 24 % 256, w >>> 16 % 256, w >>> 8 % 256, w % 256]

/-- Big-endian 8-byte rendering of the 64-bit message bit length. -/
def be64 (n : Nat) : List Nat :=
  [n >>> 56 % 256, n >>> 48 % 256, n >>> 40 % 256, n >>> 32 % 256,
   n >>> 24 % 256, n >>> 16 % 256, n >>> 8 % 256, n % 256]

/-- SHA-1 padding: append `0x80`, zero-fill to 56 mod 64, append bit length. -/
def sha1pad (msg : List Nat) : List Nat :=
  msg ++ 0x80 :: (List.replicate ((119 - msg.length % 64) % 64) 0 ++ be64 (8 * msg.length))

/-- Big-endian 32-bit words of a 64-byte block. -/
def wordsOfBytes : List Nat → List Nat
  | a :: b :: c :: d :: rest =>
    ((a <<< 24) ||| (b <<< 16) ||| (c <<< 8) ||| d) :: wordsOfBytes rest
  | _ => []

/-- Extend the 16 block words to the 80-entry message schedule. -/
def sha1ExpandW (ws : Array Nat) : Array Nat :=
  (List.range 64).foldl
    (fun w _ =>
      w.push (rotl 1 ((w.getD (w.size - 3) 0) ^^^ (w.getD (w.size - 8) 0) ^^^
        (w.getD (w.size - 14) 0) ^^^ (w.getD (w.size - 16) 0)))) ws

/-- Round function and constant for round `t`. -/
def sha1fk (t b c d : Nat) : Nat × Nat :=
  if t < 20 then ((b &&& c) ||| ((b ^^^ 0xffffffff) &&& d), 0x5a827999)
  else if t < 40 then (b ^^^ c ^^^ d, 0x6ed9eba1)
  else if t < 60 then ((b &&& c) ||| (b &&& d) ||| (c &&& d), 0x8f1bbcdc)
  else (b ^^^ c ^^^ d, 0xca62c1d6)

def sha1Round (w : Array Nat) (st : Nat × Nat × Nat × Nat × Nat) (t : Nat) :
    Nat × Nat × Nat × Nat × Nat :=
  let (a, b, c, d, e) := st
  let fk := sha1fk t b c d
  let temp := (rotl 5 a + fk.1 + e + fk.2 + w.getD t 0) % 2 ^ 32
  (temp, a, rotl 30 b, c, d)

structure SHA1State where
  h0 : Nat
  h1 : Nat
  h2 : Nat
  h3 : Nat
  h4 : Nat

def processBlock (st : SHA1State) (block : List Nat) : SHA1State :=
  let w := sha1ExpandW (List.toArray (wordsOfBytes block))
  let r := (List.range 80).foldl (sha1Round w) (st.h0, st.h1, st.h2, st.h3, st.h4)
  ⟨(st.h0 + r.1) % 2 ^ 32, (st.h1 + r.2.1) % 2 ^ 32, (st.h2 + r.2.2.1) % 2 ^ 32,
   (st.h3 + r.2.2.2.1) % 2 ^ 32, (st.h4 + r.2.2.2.2) % 2 ^ 32⟩

def sha1start : SHA1State :=
  ⟨0x67452301, 0xefcdab89, 0x98badcfe, 0x10325476, 0xc3d2e1f0⟩

def sha1digestBytes (st : SHA1State) : List Nat :=
  be32 st.h0 ++ be32 st.h1 ++ be32 st.h2 ++ be32 st.h3 ++ be32 st.h4

/-- SHA-1 of a byte sequence (bytes as `Nat < 256`), 20-byte digest. -/
def sha1 (msg : List Nat) : List Nat :=
  sha1digestBytes ((chunksOf 64 (sha1pad msg)).foldl processBlock sha1start)

/-- UTF-8 bytes of one character (as Python's `str.encode("utf-8")`). -/
def charUtf8 (c : Char) : List Nat :=
  let n := c.toNat
  if n < 0x80 then [n]
  else if n < 0x800 then [0xc0 ||| (n >>> 6), 0x80 ||| (n &&& 0x3f)]
  else if n < 0x10000 then
    [0xe0 ||| (n >>> 12), 0x80 ||| ((n >>> 6) &&& 0x3f), 0x80 ||| (n &&& 0x3f)]
  else
    [0xf0 ||| (n >>> 18), 0x80 ||| ((n >>> 12) &&& 0x3f),
     0x80 ||| ((n >>> 6) &&& 0x3f), 0x80 ||| (n &&& 0x3f)]

def utf8Bytes (s : String) : List Nat := s.data.flatMap charUtf8

/-- The 16 bytes of `uuid.NAMESPACE_URL` (6ba7b811-9dad-11d1-80b4-00c04fd430c8). -/
def NAMESPACE_URL : List Nat :=
  [0x6b, 0xa7, 0xb8, 0x11, 0x9d, 0xad, 0x11, 0xd1,
   0x80, 0xb4, 0x00, 0xc0, 0x4f, 0xd4, 0x30, 0xc8]

/-- The 16 id bytes of `uuid.uuid5(NAMESPACE_URL, name)`.  Byte 6 keeps its
low nibble and gets version nibble 5 (`(x &&& 0x0f) ||| 0x50 = x % 16 + 0x50`);
byte 8 keeps its low 6 bits and gets the variant bits
(`(x &&& 0x3f) ||| 0x80 = x % 64 + 0x80`). -/
def uuid5Bytes (name : String) : List Nat :=
  let d := (sha1 (NAMESPACE_URL ++ utf8Bytes name)).take 16
  (d.set 6 (d.getD 6 0 % 16 + 0x50)).set 8 (d.getD 8 0 % 64 + 0x80)

/-- Two lowercase hex digits of a byte. -/
def byteHex (b : Nat) : List Char := [Nat.digitChar (b / 16), Nat.digitChar (b % 16)]

/-- Standard 8-4-4-4-12 dashed rendering of 16 id bytes, as `str(uuid.UUID)`. -/
def uuidFormat (bs : List Nat) : String :=
  let h := bs.flatMap byteHex
  String.mk (h.take 8 ++ '-' :: ((h.drop 8).take 4 ++ '-' ::
    ((h.drop 12).take 4 ++ '-' :: ((h.drop 16).take 4 ++ '-' :: h.drop 20))))

/-- Decimal digits of `n`, least-significant first (structural recursion with
an evaluation-fuel bound, always sufficient at `n` itself). -/
def decDigitsAux : Nat → Nat → List Nat
  | _, 0 => []
  | 0, _ + 1 => []
  | fuel + 1, n + 1 => (n + 1) % 10 :: decDigitsAux fuel ((n + 1) / 10)

def decDigits (n : Nat) : List Nat := decDigitsAux n n

/-- Decimal rendering of a natural number, as Python's `f"{i}"`. -/
def decRepr (n : Nat) : String :=
  if n = 0 then "0" else String.mk (((decDigits n).map Nat.digitChar).reverse)

/-- The name string hashed by the id derivation: `f"{source_id}:{i}"`. -/
def idName (source_id : String) (offset : Nat) : String :=
  source_id ++ ":" ++ decRepr offset

/-- The id `str(uuid.uuid5(uuid.NAMESPACE_URL, ...))` of `f"{source_id}:{i}"` from
`upsert_step` in `main.py`. -/
def deriveId (source_id : String) (offset : Nat) : String :=
  uuidFormat (uuid5Bytes (idName source_id offset))

/-! ## Vector store (`vectore_db.py`) -/

/-- A stored point's payload: the optional `"text"` and `"source"` fields. -/
structure Payload where
  text : Option String
  source : Option String
  deriving DecidableEq, Repr

/-- A stored point, `PointStruct(id=..., vector=..., payload=...)`. -/
structure QPoint where
  id : String
  vector : Vec
  payload : Payload
  deriving DecidableEq, Repr

/-- The persisted points of the engine's collection. -/
abbrev Store := List QPoint

/-- Engine-side upsert of one point: insert-or-overwrite keyed by `id`
(the engine's documented upsert semantics; the position of a point within
the collection is immaterial, every claim below is position-insensitive). -/
def upsertOne (st : Store) (p : QPoint) : Store :=
  st.filter (fun q => q.id != p.id) ++ [p]

/-- Engine-side upsert of a point list, first to last. -/
def upsertPoints (st : Store) (ps : List QPoint) : Store :=
  ps.foldl upsertOne st

/-- The point list built by `QdrantStorage.upsert` via
`[PointStruct(id=ids[i], vector=vectors[i], payload=payloads[i]) for i in
range(len(ids))]`: `none` models the `IndexError` raised when `vectors` or
`payloads` is shorter than `ids`. -/
def buildPoints (ids : List String) (vectors : List Vec)
    (payloads : List Payload) : Option (List QPoint) :=
  (List.range ids.length).mapM (fun i => do
    let v ← vectors[i]?
    let pl ← payloads[i]?
    pure (QPoint.mk (ids.getD i "") v pl))

/-- The method `QdrantStorage.upsert`: builds the point list (raising `IndexError`
before any engine call when it cannot), then hands it to the engine. -/
def QdrantStorage.upsert (st : Store) (ids : List String) (vectors : List Vec)
    (payloads : List Payload) : Option Store :=
  (buildPoints ids vectors payloads).map (upsertPoints st)

/-- Python truthiness filter `payload.get(field)`: a field contributes only
when present and non-empty (`""` is falsy). -/
def truthy : Option String → Option String
  | some s => if s = "" then none else some s
  | none => none

/-- The model `RAGSearchResult` from `custom_type.py`. -/
structure RAGSearchResult where
  contexts : List String
  sources : List String
  deriving DecidableEq, Repr

/-- The method `QdrantStorage.search`, applied to the matched points the engine returns
for `query_points(query=..., limit=top_k, with_payload=True)` (at most
`top_k` points, in descending relevance — the ranking itself is engine-side).
Truthy `"text"` fields are collected in match order; truthy `"source"` fields
are accumulated in a Python `set` and returned as `list(sources)`, whose
iteration order is interpreter-defined — the model determinizes it to
first-occurrence order, on which no claim depends. -/
def QdrantStorage.search (points : List QPoint) : RAGSearchResult :=
  { contexts := points.filterMap (fun p => truthy p.payload.text)
    sources := (points.filterMap (fun p => truthy p.payload.source)).dedup }

/-! ## `QdrantStorage.__init__` -/

/-- Engine replies to `create_collection`. -/
inductive CreateErr where
  | alreadyExists
  | engineFailure
  deriving DecidableEq, Repr

inductive Distance where
  | cosine
  | dot
  | euclid
  deriving DecidableEq, Repr

/-- The creation request `VectorParams(size=dim, distance=...)`. -/
structure VectorParams where
  size : Nat
  distance : Distance
  deriving DecidableEq, Repr

inductive InitErr where
  | storeUnreachable
  | createFailed (e : CreateErr)
  deriving DecidableEq, Repr

/-- The constructor `QdrantStorage.__init__`: calls `get_collections()` first (fail fast when
the engine is unreachable), then `collection_exists`, then — only when absent
— `create_collection` with `VectorParams(size=dim, distance=COSINE)`.
`reachable` models the outcome of `get_collections()`, `collExists` the reply
of `collection_exists`, and `createResp` the engine's reply to
`create_collection` (in a concurrent race the reply can be `alreadyExists`
even though `collExists` was `false`).  The result carries the creation
request issued, `none` when the collection already existed; an error reply
from `create_collection` propagates uncaught. -/
def QdrantStorage.construct (reachable collExists : Bool)
    (createResp : VectorParams → Except CreateErr Unit) (dim : Nat) :
    Except InitErr (Option VectorParams) :=
  if !reachable then .error .storeUnreachable
  else if collExists then .ok none
  else
    match createResp (VectorParams.mk dim .cosine) with
    | .ok _ => .ok (some (VectorParams.mk dim .cosine))
    | .error e => .error (.createFailed e)

/-! ## Ingestion pipeline (`rag_ingest_pdf.upsert_step` in `main.py`) -/

/-- The step `upsert_step`: embeds the chunks (batch size 100), derives
`uuid5(NAMESPACE_URL, f"{source_id}:{i}")` ids and
`{"text": chunks[i], "source": source_id}` payloads, and upserts.  Returns
the new store contents with `{"ingested": len(chunks)}`; an embedding failure
propagates before any upsert is attempted. -/
def upsert_step (provider : List String → List Vec) (st : Store)
    (chunks : List String) (source_id : String) :
    Except RAGErr (Store × Nat) :=
  match embed_texts provider chunks 100 with
  | .error e => .error e
  | .ok vectors =>
    let ids := (List.range chunks.length).map (fun i => deriveId source_id i)
    let payloads := chunks.map (fun c => Payload.mk (some c) (some source_id))
    match QdrantStorage.upsert st ids vectors payloads with
    | none => .error .indexError
    | some st2 => .ok (st2, chunks.length)

/-! ## Query pipeline (`rag_query_pdf` in `main.py`) -/

/-- The model `RAGQueryResult` from `custom_type.py`. -/
structure RAGQueryResult where
  answer : String
  sources : List String
  num_contexts : Nat
  deriving DecidableEq, Repr

inductive QueryErr where
  /-- Python `ValueError("Missing question")` -/
  | missingQuestion
  /-- An error propagating out of `embed_texts` -/
  | embedFailure (e : RAGErr)
  deriving DecidableEq, Repr

/-- The fixed insufficient-context reply of `rag_query_pdf` (the source file
contains the answer string with these exact characters). -/
def fallbackAnswer : String := "I donâ€™t know based on the provided context."

def mkPrompt (context_block question : String) : String :=
  "Answer ONLY using the context below.\n\nContext:\n" ++ context_block ++
    "\n\nQuestion: " ++ question

def llmInput (prompt : String) : String :=
  "SYSTEM:\nUse ONLY the provided context. If the answer is not present, say you don't know.\n\nUSER:\n"
    ++ prompt

/-- The trigger event's payload: `question` is absent or a string;
`top_k = int(ctx.event.data.get("top_k", 5))` is modelled already coerced. -/
structure QueryEvent where
  question : Option String
  top_k : Nat

/-- The workflow `rag_query_pdf`: rejects an absent or empty (falsy) question, embeds the
question (the `[0]` indexing of `embed_texts([question])[0]` is `headD` — the
embed contract returns exactly one vector for one input), asks the engine for
matches (`engine v k` models the `query_points` reply), and either
short-circuits to the fixed fallback on an empty context list or synthesizes
an answer through the generative model `llm`, trimming surrounding
whitespace. -/
def rag_query_pdf (provider : List String → List Vec)
    (engine : Vec → Nat → List QPoint) (llm : String → String)
    (ev : QueryEvent) : Except QueryErr RAGQueryResult :=
  match ev.question with
  | none => .error .missingQuestion
  | some q =>
    if q = "" then .error .missingQuestion
    else
      match embed_texts provider [q] 100 with
      | .error e => .error (.embedFailure e)
      | .ok vs =>
        let sr := QdrantStorage.search (engine (vs.headD []) ev.top_k)
        if sr.contexts = [] then .ok (RAGQueryResult.mk fallbackAnswer [] 0)
        else
          let context_block := String.intercalate "\n\n" sr.contexts
          let answer := (llm (llmInput (mkPrompt context_block q))).trim
          .ok (RAGQueryResult.mk answer sr.sources sr.contexts.length)

/-! ## Store lemmas: the engine's keyed overwrite makes re-upserting the
same point list a no-op -/

/-- Point `q` survives every point of `ps`: no point of `ps` carries `q`'s id. -/
def freshFor (ps : List QPoint) (q : QPoint) : Bool :=
  ps.all (fun p => q.id != p.id)

/-- Little-endian base-256 value of a byte list. -/
def bytesToNat : List Nat → Nat
  | [] => 0
  | b :: rest => b + 256 * bytesToNat rest

/-! ## Concrete providers, engines and generative models used by witnesses -/

/-- A provider returning one `EMBED_DIM`-length vector per text. -/
def witnessProvider : List String → List Vec :=
  fun b => b.map (fun _ => List.replicate EMBED_DIM 0)

/-- A provider whose first vector is well-sized but whose second is not. -/
def badProvider : List String → List Vec :=
  fun b => b.map (fun t => if t = "a" then List.replicate EMBED_DIM 0 else [0])

/-- A provider returning only length-1 vectors. -/
def dimOneProvider : List String → List Vec :=
  fun b => b.map (fun _ => [0])

/-- A provider returning no vectors at all. -/
def lossyProvider : List String → List Vec := fun _ => []

/-- An engine reply with no matched points. -/
def emptyEngine : Vec → Nat → List QPoint := fun _ _ => []

def llmA : String → String := fun _ => "A"

def llmB : String → String := fun _ => "B"

/-- Engine accepting every creation request. -/
def okCreate : VectorParams → Except CreateErr Unit := fun _ => .ok ()

/-- Engine reporting that the collection already exists (creation race). -/
def conflictCreate : VectorParams → Except CreateErr Unit :=
  fun _ => .error .alreadyExists

/-! ## Theorems -/

theorem chunksOfAux_fuel (bs : Nat) :
    ∀ (f1 f2 : Nat) (ts : List α), ts.length ≤ f1 → ts.length ≤ f2 →
      chunksOfAux bs f1 ts = chunksOfAux bs f2 ts := by
  intro f1
  induction f1 with
  | zero =>
    intro f2 ts h1 _
    rw [List.length_eq_zero.mp (Nat.le_zero.mp h1)]
    cases f2 <;> rfl
  | succ g1 ih =>
    intro f2 ts h1 h2
    match ts with
    | [] => cases f2 <;> rfl
    | t :: rest =>
      match f2 with
      | 0 => exact absurd h2 (by simp)
      | g2 + 1 =>
        show (if bs = 0 then [] else _) = (if bs = 0 then [] else _)
        by_cases hbs : bs = 0
        · rw [if_pos hbs, if_pos hbs]
        · rw [if_neg hbs, if_neg hbs]
          have hd : ((t :: rest).drop bs).length ≤ g1 := by
            rw [List.length_drop]
            have : (t :: rest).length ≤ g1 + 1 := h1
            have : 0 < bs := Nat.pos_of_ne_zero hbs
            omega
          have hd2 : ((t :: rest).drop bs).length ≤ g2 := by
            rw [List.length_drop]
            have : (t :: rest).length ≤ g2 + 1 := h2
            have : 0 < bs := Nat.pos_of_ne_zero hbs
            omega
          rw [ih _ _ hd hd2]

theorem chunksOf_nil (bs : Nat) : chunksOf bs ([] : List α) = [] := rfl

theorem chunksOf_cons (bs : Nat) (ts : List α) (hts : ts ≠ []) (hbs : bs ≠ 0) :
    chunksOf bs ts = ts.take bs :: chunksOf bs (ts.drop bs) := by
  match ts with
  | t :: rest =>
    show chunksOfAux bs (rest.length + 1) (t :: rest) = _
    show (if bs = 0 then [] else _) = _
    rw [if_neg hbs]
    rw [chunksOfAux_fuel bs rest.length ((t :: rest).drop bs).length
      ((t :: rest).drop bs)
      (by rw [List.length_drop, List.length_cons]; omega) (Nat.le_refl _)]
    rfl

theorem chunksOf_flatten_aux (bs : Nat) (hbs : 0 < bs) :
    ∀ (n : Nat) (ts : List α), ts.length ≤ n → (chunksOf bs ts).flatten = ts := by
  intro n
  induction n with
  | zero =>
    intro ts hts
    rw [List.length_eq_zero.mp (Nat.le_zero.mp hts), chunksOf_nil]
    rfl
  | succ n ih =>
    intro ts hts
    match ts with
    | [] => rw [chunksOf_nil]; rfl
    | t :: rest =>
      rw [chunksOf_cons bs (t :: rest) (by simp) (Nat.pos_iff_ne_zero.mp hbs)]
      rw [List.flatten_cons, ih]
      · exact List.take_append_drop bs (t :: rest)
      · rw [List.length_drop]
        have h1 : (t :: rest).length ≤ n + 1 := hts
        omega

/-- The batches seen by the provider reassemble, in order, into the input. -/
theorem chunksOf_flatten (bs : Nat) (hbs : 0 < bs) (ts : List α) :
    (chunksOf bs ts).flatten = ts :=
  chunksOf_flatten_aux bs hbs ts.length ts (Nat.le_refl _)

theorem chunksOf_mem_aux (bs : Nat) :
    ∀ (n : Nat) (ts : List α) (b : List α), ts.length ≤ n →
      b ∈ chunksOf bs ts → b.length ≤ bs ∧ b ≠ [] := by
  intro n
  induction n with
  | zero =>
    intro ts b hts hb
    rw [List.length_eq_zero.mp (Nat.le_zero.mp hts), chunksOf_nil] at hb
    exact absurd hb (List.not_mem_nil b)
  | succ n ih =>
    intro ts b hts hb
    match ts with
    | [] => rw [chunksOf_nil] at hb; exact absurd hb (List.not_mem_nil b)
    | t :: rest =>
      by_cases hbs : bs = 0
      · subst hbs
        exact absurd (hb : b ∈ ([] : List (List α))) (List.not_mem_nil b)
      · rw [chunksOf_cons bs (t :: rest) (by simp) hbs] at hb
        rcases List.mem_cons.mp hb with h | h
        · subst h
          constructor
          · rw [List.length_take]; exact Nat.min_le_left _ _
          · have : 0 < ((t :: rest).take bs).length := by
              rw [List.length_take]
              exact Nat.lt_min.mpr ⟨Nat.pos_of_ne_zero hbs, Nat.succ_pos _⟩
            exact List.length_pos.mp this
        · refine ih _ b ?_ h
          rw [List.length_drop]
          have h1 : (t :: rest).length ≤ n + 1 := hts
          have h2 : 0 < bs := Nat.pos_of_ne_zero hbs
          omega

/-- Every batch is non-empty and holds at most `bs` texts. -/
theorem chunksOf_mem (bs : Nat) (ts : List α) (b : List α)
    (hb : b ∈ chunksOf bs ts) : b.length ≤ bs ∧ b ≠ [] :=
  chunksOf_mem_aux bs ts.length ts b (Nat.le_refl _) hb

theorem chunksOf_length_aux (bs : Nat) (hbs : 0 < bs) :
    ∀ (n : Nat) (ts : List α), ts.length ≤ n →
      (chunksOf bs ts).length = (ts.length + bs - 1) / bs := by
  intro n
  induction n with
  | zero =>
    intro ts hts
    rw [List.length_eq_zero.mp (Nat.le_zero.mp hts), chunksOf_nil]
    simp
    rw [Nat.div_eq_of_lt (by omega)]
  | succ n ih =>
    intro ts hts
    match ts with
    | [] =>
      rw [chunksOf_nil]
      simp
      rw [Nat.div_eq_of_lt (by omega)]
    | t :: rest =>
      rw [chunksOf_cons bs (t :: rest) (by simp) (Nat.pos_iff_ne_zero.mp hbs)]
      rw [List.length_cons, ih _ (by rw [List.length_drop]; have : (t :: rest).length ≤ n + 1 := hts; omega)]
      rw [List.length_drop]
      set l := (t :: rest).length with hl
      have hl1 : 1 ≤ l := by rw [hl]; exact Nat.succ_le_succ (Nat.zero_le _)
      -- goal: (l - bs + bs - 1) / bs + 1 = (l + bs - 1) / bs
      by_cases hcase : bs ≤ l
      · have h1 : l - bs + bs - 1 = l - 1 := by omega
        have h2 : l + bs - 1 = (l - 1) + bs := by omega
        rw [h1, h2, Nat.add_div_right _ hbs]
      · have h1 : l - bs = 0 := by omega
        have h2 : l + bs - 1 = (l - 1) + bs := by omega
        rw [h1, h2, Nat.add_div_right _ hbs]
        rw [Nat.div_eq_of_lt (by omega), Nat.div_eq_of_lt (by omega)]

/-- The number of provider calls is `⌈len(texts) / batch_size⌉`. -/
theorem chunksOf_length (bs : Nat) (hbs : 0 < bs) (ts : List α) :
    (chunksOf bs ts).length = (ts.length + bs - 1) / bs :=
  chunksOf_length_aux bs hbs ts.length ts (Nat.le_refl _)

theorem embed_texts_nil (P : List String → List Vec) (bs : Nat) :
    embed_texts P [] bs = .error .invalidInput := rfl

theorem embed_texts_ok_length (P : List String → List Vec) (ts : List String)
    (bs : Nat) (vs : List Vec) (h : embed_texts P ts bs = .ok vs) :
    vs.length = ts.length := by
  simp only [embed_texts] at h
  split at h
  · exact absurd h (by simp)
  · split at h
    · exact absurd h (by simp)
    · split at h
      · exact absurd h (by simp)
      · rename_i hcount _
        rw [← Except.ok.inj h]
        exact Decidable.not_not.mp hcount

theorem embed_texts_countMismatch (P : List String → List Vec)
    (ts : List String) (bs : Nat) (hne : ts ≠ [])
    (hc : ((chunksOf bs ts).flatMap P).length ≠ ts.length) :
    embed_texts P ts bs = .error .countMismatch := by
  unfold embed_texts
  rw [if_neg hne, if_pos hc]

theorem flatMap_map_eq_map_flatten (f : String → Vec) (L : List (List String)) :
    L.flatMap (fun b => b.map f) = L.flatten.map f := by
  induction L with
  | nil => rfl
  | cons c L ih => simp [List.flatMap_cons, List.flatten_cons, ih]

/-- A positionally-aligned provider (one vector per input text, as the
external embedding API guarantees) makes `embed_texts` return the per-text
embeddings of the whole input, in order. -/
theorem embed_texts_positional (f : String → Vec) (ts : List String)
    (bs : Nat) (hne : ts ≠ []) (hbs : 0 < bs)
    (hf : ∀ t, (f t).length = EMBED_DIM) :
    embed_texts (fun b => b.map f) ts bs = .ok (ts.map f) := by
  unfold embed_texts
  rw [if_neg hne]
  have hall : (chunksOf bs ts).flatMap (fun b => b.map f) = ts.map f := by
    rw [flatMap_map_eq_map_flatten, chunksOf_flatten bs hbs]
  rw [hall]
  rw [if_neg (by rw [List.length_map]; exact fun h => h rfl)]
  match ts, hne with
  | t :: rest, _ =>
    rw [List.map_cons, List.headD_cons]
    rw [if_neg (fun h => h (hf t))]

theorem upsertPoints_decomp (ps : List QPoint) :
    ∀ st : Store, upsertPoints st ps = st.filter (freshFor ps) ++ upsertPoints [] ps := by
  induction ps with
  | nil =>
    intro st
    show st = st.filter (fun _ => true) ++ []
    rw [List.filter_true, List.append_nil]
  | cons p rest ih =>
    intro st
    show upsertPoints (upsertOne st p) rest =
      st.filter (freshFor (p :: rest)) ++ upsertPoints [p] rest
    rw [ih (upsertOne st p), ih [p]]
    show (st.filter (fun q => q.id != p.id) ++ [p]).filter (freshFor rest) ++ _ = _
    rw [List.filter_append, List.filter_filter, List.append_assoc]
    have hpred : ∀ q ∈ st,
        (freshFor rest q && (q.id != p.id)) = freshFor (p :: rest) q := by
      intro q _
      simp only [freshFor, List.all_cons]
      rw [Bool.and_comm]
    rw [List.filter_congr hpred]

theorem mem_upsertPoints (ps : List QPoint) :
    ∀ (st : Store) (q : QPoint), q ∈ upsertPoints st ps → q ∈ st ∨ q ∈ ps := by
  induction ps with
  | nil => intro st q hq; exact Or.inl hq
  | cons p rest ih =>
    intro st q hq
    rcases ih (upsertOne st p) q hq with h | h
    · rcases List.mem_append.mp h with h' | h'
      · exact Or.inl (List.mem_filter.mp h').1
      · exact Or.inr (List.mem_cons.mpr (Or.inl (List.mem_singleton.mp h')))
    · exact Or.inr (List.mem_cons.mpr (Or.inr h))

theorem freshFor_eq_false (ps : List QPoint) (q : QPoint) (hq : q ∈ ps) :
    freshFor ps q = false := by
  rcases Bool.eq_false_or_eq_true (freshFor ps q) with h | h
  · have := List.all_eq_true.mp h q hq
    simp at this
  · exact h

theorem filter_upsertPoints_self (ps : List QPoint) :
    (upsertPoints [] ps).filter (freshFor ps) = [] := by
  rw [List.filter_eq_nil_iff]
  intro q hq
  have hmem : q ∈ ps := by
    rcases mem_upsertPoints ps [] q hq with h | h
    · exact absurd h (List.not_mem_nil q)
    · exact h
  rw [freshFor_eq_false ps q hmem]
  exact Bool.false_ne_true

/-- Upserting the same point list twice leaves exactly the state of upserting
it once: the keyed overwrite absorbs the repetition. -/
theorem upsertPoints_idem (st : Store) (ps : List QPoint) :
    upsertPoints (upsertPoints st ps) ps = upsertPoints st ps := by
  rw [upsertPoints_decomp ps (upsertPoints st ps), upsertPoints_decomp ps st]
  rw [List.filter_append, filter_upsertPoints_self, List.append_nil]
  rw [List.filter_filter]
  rw [List.filter_congr (fun q _ => Bool.and_self (freshFor ps q))]

/-! ## Option-monad `mapM` helpers, for `buildPoints` -/

theorem mapM_option_eq_map {α β : Type} (f : α → Option β) (g : α → β)
    (L : List α) (h : ∀ i ∈ L, f i = some (g i)) : L.mapM f = some (L.map g) := by
  induction L with
  | nil => rfl
  | cons a L ih =>
    rw [List.mapM_cons, h a (List.mem_cons_self a L),
      ih (fun i hi => h i (List.mem_cons_of_mem a hi))]
    rfl

theorem mapM_option_eq_none {α β : Type} (f : α → Option β)
    (L : List α) (i : α) (hi : i ∈ L) (h : f i = none) : L.mapM f = none := by
  induction L with
  | nil => exact absurd hi (List.not_mem_nil i)
  | cons a L ih =>
    rw [List.mapM_cons]
    rcases List.mem_cons.mp hi with h' | h'
    · subst h'; rw [h]; rfl
    · cases hfa : f a with
      | none => rfl
      | some b => rw [ih h']; rfl

/-! ## Decimal rendering is injective -/

theorem decDigitsAux_eq (fuel n : Nat) (h : n ≤ fuel) :
    decDigitsAux fuel n = Nat.digits 10 n := by
  induction fuel generalizing n with
  | zero =>
    match n, h with
    | 0, _ => rw [Nat.digits_zero]; exact rfl
  | succ g ih =>
    match n with
    | 0 => rw [Nat.digits_zero]; exact rfl
    | m + 1 =>
      show (m + 1) % 10 :: decDigitsAux g ((m + 1) / 10) = _
      rw [ih ((m + 1) / 10) (by
        have := Nat.div_lt_self (Nat.succ_pos m) (by omega : 1 < 10)
        omega)]
      rw [Nat.digits_def' (by omega : 1 < 10) (Nat.succ_pos m)]

theorem decDigits_eq (n : Nat) : decDigits n = Nat.digits 10 n :=
  decDigitsAux_eq n n (Nat.le_refl n)

theorem digitChar_inj_lt :
    ∀ a < 10, ∀ b < 10, Nat.digitChar a = Nat.digitChar b → a = b := by decide

theorem map_digitChar_inj :
    ∀ (l1 l2 : List Nat), (∀ x ∈ l1, x < 10) → (∀ x ∈ l2, x < 10) →
      l1.map Nat.digitChar = l2.map Nat.digitChar → l1 = l2 := by
  intro l1
  induction l1 with
  | nil =>
    intro l2 _ _ h
    match l2 with
    | [] => rfl
    | _ :: _ => exact absurd h (by simp)
  | cons a l1 ih =>
    intro l2 h1 h2 h
    match l2 with
    | [] => exact absurd h (by simp)
    | b :: l2 =>
      simp only [List.map_cons, List.cons.injEq] at h
      rw [digitChar_inj_lt a (h1 a (List.mem_cons_self a l1)) b
        (h2 b (List.mem_cons_self b l2)) h.1]
      rw [ih l2 (fun x hx => h1 x (List.mem_cons_of_mem a hx))
        (fun x hx => h2 x (List.mem_cons_of_mem b hx)) h.2]

theorem decRepr_inj : Function.Injective decRepr := by
  intro m n h
  unfold decRepr at h
  have digitsLt : ∀ k x, x ∈ Nat.digits 10 k → x < 10 :=
    fun k x hx => Nat.digits_lt_base (by omega) hx
  by_cases hm : m = 0 <;> by_cases hn : n = 0
  · rw [hm, hn]
  · rw [if_pos hm, if_neg hn] at h
    exfalso
    have hdata := congrArg String.data h
    have : ['0'] = ((decDigits n).map Nat.digitChar).reverse := hdata
    have h2 : (decDigits n).map Nat.digitChar = ['0'] := by
      rw [← List.reverse_reverse ((decDigits n).map Nat.digitChar), ← this]
      rfl
    rw [decDigits_eq] at h2
    have h3 : Nat.digits 10 n = [0] := by
      have h0 : Nat.digitChar 0 = '0' := rfl
      refine map_digitChar_inj _ [0] (digitsLt n) (by intro x hx; simp at hx; omega) ?_
      rw [h2]; rfl
    have := congrArg (Nat.ofDigits 10) h3
    rw [Nat.ofDigits_digits] at this
    exact hn (by simpa using this)
  · rw [if_neg hm, if_pos hn] at h
    exfalso
    have hdata := congrArg String.data h
    have : ((decDigits m).map Nat.digitChar).reverse = ['0'] := hdata
    have h2 : (decDigits m).map Nat.digitChar = ['0'] := by
      rw [← List.reverse_reverse ((decDigits m).map Nat.digitChar), this]
      rfl
    rw [decDigits_eq] at h2
    have h3 : Nat.digits 10 m = [0] := by
      refine map_digitChar_inj _ [0] (digitsLt m) (by intro x hx; simp at hx; omega) ?_
      rw [h2]; rfl
    have := congrArg (Nat.ofDigits 10) h3
    rw [Nat.ofDigits_digits] at this
    exact hm (by simpa using this)
  · rw [if_neg hm, if_neg hn] at h
    have hdata := congrArg String.data h
    have h2 : ((decDigits m).map Nat.digitChar).reverse =
        ((decDigits n).map Nat.digitChar).reverse := hdata
    have h3 := List.reverse_injective h2
    rw [decDigits_eq, decDigits_eq] at h3
    have h4 := map_digitChar_inj _ _ (digitsLt m) (digitsLt n) h3
    exact Nat.digits.injective 10 h4

/-! ## Name-string distinctness for the identity scheme -/

theorem idName_ne_of_offset_ne (s : String) (k j : Nat) (h : k ≠ j) :
    idName s k ≠ idName s j := by
  intro he
  apply h
  apply decRepr_inj
  have hdata := congrArg String.data he
  simp only [idName, String.data_append] at hdata
  have := List.append_cancel_left (List.append_assoc _ _ _ ▸
    (List.append_assoc _ _ _ ▸ hdata))
  exact String.ext (List.append_cancel_left this)

theorem idName_ne_of_source_ne (s1 s2 : String) (k : Nat) (h : s1 ≠ s2) :
    idName s1 k ≠ idName s2 k := by
  intro he
  apply h
  have hdata := congrArg String.data he
  simp only [idName, String.data_append] at hdata
  exact String.ext (List.append_cancel_right (List.append_cancel_right hdata))

/-! ## The uuid5 id space is finite: 16 bytes, each below 256 -/

theorem be32_mem_lt (w x : Nat) (hx : x ∈ be32 w) : x < 256 := by
  simp only [be32, List.mem_cons, List.not_mem_nil, or_false] at hx
  rcases hx with h | h | h | h <;> subst h <;> exact Nat.mod_lt _ (by omega)

theorem sha1_length (msg : List Nat) : (sha1 msg).length = 20 := rfl

theorem sha1_mem_lt (msg : List Nat) (x : Nat) (hx : x ∈ sha1 msg) : x < 256 := by
  simp only [sha1, sha1digestBytes, List.mem_append] at hx
  rcases hx with ((((h | h) | h) | h) | h) <;> exact be32_mem_lt _ x h

theorem uuid5Bytes_length (name : String) : (uuid5Bytes name).length = 16 := by
  simp only [uuid5Bytes]
  rw [List.length_set, List.length_set, List.length_take, sha1_length]
  omega

theorem uuid5Bytes_mem_lt (name : String) (x : Nat)
    (hx : x ∈ uuid5Bytes name) : x < 256 := by
  simp only [uuid5Bytes] at hx
  rcases List.mem_or_eq_of_mem_set hx with hx' | hx'
  · rcases List.mem_or_eq_of_mem_set hx' with hx'' | hx''
    · exact sha1_mem_lt _ x (List.take_subset 16 _ hx'')
    · rw [hx'']; omega
  · rw [hx']; omega

theorem bytesToNat_lt : ∀ l : List Nat, (∀ x ∈ l, x < 256) →
    bytesToNat l < 256 ^ l.length := by
  intro l
  induction l with
  | nil => intro _; exact Nat.zero_lt_one
  | cons b rest ih =>
    intro h
    have hb : b < 256 := h b (List.mem_cons_self b rest)
    have hr := ih (fun x hx => h x (List.mem_cons_of_mem b hx))
    show b + 256 * bytesToNat rest < 256 ^ (rest.length + 1)
    rw [Nat.pow_succ]
    calc b + 256 * bytesToNat rest
        < 256 + 256 * bytesToNat rest := by omega
      _ = 256 * (bytesToNat rest + 1) := by ring
      _ ≤ 256 * 256 ^ rest.length := by
          exact Nat.mul_le_mul_left 256 (Nat.succ_le_of_lt hr)
      _ = 256 ^ rest.length * 256 := Nat.mul_comm _ _

theorem bytesToNat_inj : ∀ (l1 l2 : List Nat), l1.length = l2.length →
    (∀ x ∈ l1, x < 256) → (∀ x ∈ l2, x < 256) →
    bytesToNat l1 = bytesToNat l2 → l1 = l2 := by
  intro l1
  induction l1 with
  | nil =>
    intro l2 hlen _ _ _
    exact (List.length_eq_zero.mp hlen.symm).symm
  | cons a l1 ih =>
    intro l2 hlen h1 h2 hval
    match l2 with
    | [] => exact absurd hlen (by simp)
    | b :: l2 =>
      have ha : a < 256 := h1 a (List.mem_cons_self a l1)
      have hb : b < 256 := h2 b (List.mem_cons_self b l2)
      have hv : a + 256 * bytesToNat l1 = b + 256 * bytesToNat l2 := hval
      have hab : a = b ∧ bytesToNat l1 = bytesToNat l2 := by omega
      rw [hab.1, ih l2 (by simpa using hlen)
        (fun x hx => h1 x (List.mem_cons_of_mem a hx))
        (fun x hx => h2 x (List.mem_cons_of_mem b hx)) hab.2]

/-! ## Unfolding lemmas for `upsert_step` -/

theorem upsert_step_error_eq (P : List String → List Vec) (st : Store)
    (chunks : List String) (source_id : String) (e : RAGErr)
    (hemb : embed_texts P chunks 100 = .error e) :
    upsert_step P st chunks source_id = .error e := by
  unfold upsert_step
  rw [hemb]

theorem upsert_step_ok_eq (P : List String → List Vec) (st : Store)
    (chunks : List String) (source_id : String) (vectors : List Vec)
    (hemb : embed_texts P chunks 100 = .ok vectors) :
    upsert_step P st chunks source_id =
      match QdrantStorage.upsert st
          ((List.range chunks.length).map (fun i => deriveId source_id i))
          vectors
          (chunks.map (fun c => Payload.mk (some c) (some source_id))) with
      | none => .error .indexError
      | some st2 => .ok (st2, chunks.length) := by
  unfold upsert_step
  rw [hemb]

theorem witnessProvider_embed : embed_texts witnessProvider ["c"] 100 =
    .ok [List.replicate EMBED_DIM 0] :=
  embed_texts_positional (fun _ => List.replicate EMBED_DIM 0) ["c"] 100
    (by simp) (by omega) (fun _ => by rw [List.length_replicate])

/-! ## Claims -/

/-- C1 (confirmed).  Idempotent ingestion: a successful run of the
embed-and-upsert step leaves a store state on which running the very same
step again succeeds, returns the same ingested count, and leaves the store
unchanged — in particular the set of distinct stored points and their count
are those of a single run.  Each chunk's point id is the pure function
`deriveId (source_id, offset)`, and upserting an existing id overwrites. -/
theorem claim1_idempotent_ingestion (P : List String → List Vec) (st : Store)
    (chunks : List String) (source_id : String) (st1 : Store) (n : Nat)
    (h1 : upsert_step P st chunks source_id = .ok (st1, n)) :
    upsert_step P st1 chunks source_id = .ok (st1, n) ∧
    ∀ st2 n2, upsert_step P st1 chunks source_id = .ok (st2, n2) →
      st2.toFinset = st1.toFinset ∧ st2.dedup.length = st1.dedup.length := by
  have main : upsert_step P st1 chunks source_id = .ok (st1, n) := by
    cases hemb : embed_texts P chunks 100 with
    | error e =>
      rw [upsert_step_error_eq P st chunks source_id e hemb] at h1
      exact absurd h1 (by simp)
    | ok vectors =>
      rw [upsert_step_ok_eq P st chunks source_id vectors hemb] at h1
      rw [upsert_step_ok_eq P st1 chunks source_id vectors hemb]
      cases hpts : buildPoints
          ((List.range chunks.length).map (fun i => deriveId source_id i))
          vectors
          (chunks.map (fun c => Payload.mk (some c) (some source_id))) with
      | none =>
        rw [QdrantStorage.upsert, hpts] at h1
        exact absurd h1 (by simp)
      | some pts =>
        rw [QdrantStorage.upsert, hpts] at h1
        have h1' : (Except.ok (upsertPoints st pts, chunks.length) :
            Except RAGErr (Store × Nat)) = .ok (st1, n) := h1
        have hinj := Except.ok.inj h1'
        rw [Prod.mk.injEq] at hinj
        rw [QdrantStorage.upsert, hpts]
        show Except.ok (upsertPoints st1 pts, chunks.length) = .ok (st1, n)
        rw [← hinj.1, upsertPoints_idem, hinj.1, hinj.2]
  refine ⟨main, fun st2 n2 h2 => ?_⟩
  rw [main] at h2
  have hinj := Except.ok.inj h2
  rw [Prod.mk.injEq] at hinj
  rw [← hinj.1]
  exact ⟨rfl, rfl⟩

/-- C1 witness: ingesting the one-chunk document `["c"]` under source id
`"s"` into the empty store yields a single point whose id is
`uuid5(NAMESPACE_URL, "s:0")`; re-running the step reproduces exactly that
state and count. -/
theorem claim1_witness :
    upsert_step witnessProvider
      [QPoint.mk "2f3d7302-d390-58f4-954c-078f2a079a41"
        (List.replicate EMBED_DIM 0) (Payload.mk (some "c") (some "s"))]
      ["c"] "s" =
      .ok ([QPoint.mk "2f3d7302-d390-58f4-954c-078f2a079a41"
        (List.replicate EMBED_DIM 0) (Payload.mk (some "c") (some "s"))], 1) :=
  (claim1_idempotent_ingestion witnessProvider [] ["c"] "s"
    [QPoint.mk "2f3d7302-d390-58f4-954c-078f2a079a41"
      (List.replicate EMBED_DIM 0) (Payload.mk (some "c") (some "s"))] 1
    (by rw [upsert_step_ok_eq witnessProvider [] ["c"] "s"
          [List.replicate EMBED_DIM 0] witnessProvider_embed]
        rfl)).1

theorem embed_texts_ok_eq (P : List String → List Vec) (ts : List String)
    (bs : Nat) (hne : ts ≠ [])
    (hcount : ((chunksOf bs ts).flatMap P).length = ts.length)
    (hdim : (((chunksOf bs ts).flatMap P).headD []).length = EMBED_DIM) :
    embed_texts P ts bs = .ok ((chunksOf bs ts).flatMap P) := by
  unfold embed_texts
  rw [if_neg hne, if_neg (not_not_intro hcount), if_neg (not_not_intro hdim)]

/-- C2 counterexample: the code checks only the FIRST returned vector's
length (`len(all_embeddings[0])`).  With a provider whose second vector has
length 1 ≠ `EMBED_DIM`, `embed_texts` succeeds instead of failing with
`DimensionMismatch`, refuting "for every call where any returned vector's
length differs from EMBED_DIM, embed fails with DimensionMismatch". -/
theorem claim2_counterexample :
    embed_texts badProvider ["a", "b"] 100 =
      .ok [List.replicate EMBED_DIM 0, [0]] ∧
    ([0] : Vec).length ≠ EMBED_DIM ∧
    embed_texts badProvider ["a", "b"] 100 ≠ .error .dimensionMismatch := by
  have hflat : (chunksOf 100 ["a", "b"]).flatMap badProvider =
      [List.replicate EMBED_DIM 0, [0]] := rfl
  have h1 : embed_texts badProvider ["a", "b"] 100 =
      .ok [List.replicate EMBED_DIM 0, [0]] := by
    rw [← hflat]
    refine embed_texts_ok_eq badProvider ["a", "b"] 100 (by simp) ?_ ?_
    · rw [hflat]
      rfl
    · rw [hflat]
      show (List.replicate EMBED_DIM 0).length = EMBED_DIM
      rw [List.length_replicate]
  refine ⟨h1, by decide, ?_⟩
  rw [h1]
  simp

/-- C2 (corrected).  Dimension guard as implemented: when the provider's
total vector count matches but the FIRST returned vector's length differs
from `EMBED_DIM`, `embed_texts` fails with `DimensionMismatch`; on such a
failure the ingestion step propagates the error and no upsert is attempted
(the step leaves every store state untouched, returning no new state). -/
theorem claim2_dimension_guard (P : List String → List Vec) (st : Store)
    (chunks : List String) (source_id : String) (hne : chunks ≠ [])
    (hcount : ((chunksOf 100 chunks).flatMap P).length = chunks.length)
    (hdim : (((chunksOf 100 chunks).flatMap P).headD []).length ≠ EMBED_DIM) :
    embed_texts P chunks 100 = .error .dimensionMismatch ∧
    upsert_step P st chunks source_id = .error .dimensionMismatch := by
  have hembed : embed_texts P chunks 100 = .error .dimensionMismatch := by
    unfold embed_texts
    rw [if_neg hne, if_neg (not_not_intro hcount), if_pos hdim]
  exact ⟨hembed, upsert_step_error_eq P st chunks source_id _ hembed⟩

/-- C2 witness: a provider returning a single length-1 vector trips the
dimension guard, and the ingestion step fails without upserting. -/
theorem claim2_witness :
    embed_texts dimOneProvider ["a"] 100 = .error .dimensionMismatch ∧
    upsert_step dimOneProvider [] ["a"] "s" = .error .dimensionMismatch :=
  claim2_dimension_guard dimOneProvider [] ["a"] "s" (by simp) (by decide)
    (by decide)

/-- C4 (confirmed).  Batch boundary correctness: the batches are consecutive
(they reassemble into the input in order), each holds at most `batchSize`
texts, the provider is called once per batch — `⌈len(texts)/batchSize⌉`
times — and with a positionally-aligned provider the output is the per-text
embedding of the whole input in original order; in particular 250 texts at
`batchSize = 100` yield 3 calls of sizes 100, 100, 50 and 250 vectors. -/
theorem claim4_batch_boundary (f : String → Vec) (ts : List String) (bs : Nat)
    (hne : ts ≠ []) (hbs : 0 < bs) (hf : ∀ t, (f t).length = EMBED_DIM) :
    (chunksOf bs ts).flatten = ts ∧
    (∀ b ∈ chunksOf bs ts, b.length ≤ bs) ∧
    (chunksOf bs ts).length = (ts.length + bs - 1) / bs ∧
    embed_texts (fun b => b.map f) ts bs = .ok (ts.map f) ∧
    (ts.length = 250 → bs = 100 →
      (chunksOf bs ts).map List.length = [100, 100, 50] ∧
      (ts.map f).length = 250) := by
  refine ⟨chunksOf_flatten bs hbs ts, fun b hb => (chunksOf_mem bs ts b hb).1,
    chunksOf_length bs hbs ts, embed_texts_positional f ts bs hne hbs hf, ?_⟩
  intro h250 hbs100
  subst hbs100
  constructor
  · have e1 := chunksOf_cons 100 ts hne (by omega)
    have d1 : (ts.drop 100).length = 150 := by rw [List.length_drop, h250]
    have l1 : ts.drop 100 ≠ [] := by
      intro hh
      rw [hh] at d1
      simp at d1
    have e2 := chunksOf_cons 100 (ts.drop 100) l1 (by omega)
    have d2 : ((ts.drop 100).drop 100).length = 50 := by
      rw [List.length_drop, d1]
    have l2 : (ts.drop 100).drop 100 ≠ [] := by
      intro hh
      rw [hh] at d2
      simp at d2
    have e3 := chunksOf_cons 100 ((ts.drop 100).drop 100) l2 (by omega)
    have d3 : ((ts.drop 100).drop 100).drop 100 = [] := by
      apply List.length_eq_zero.mp
      rw [List.length_drop, d2]
    rw [e1, e2, e3, d3, chunksOf_nil]
    simp only [List.map_cons, List.map_nil, List.length_take]
    rw [h250, d1, d2]
    norm_num
  · rw [List.length_map, h250]

/-- C4 witness: 250 copies of `"x"` at batch size 100. -/
theorem claim4_witness :
    (chunksOf 100 (List.replicate 250 "x")).flatten = List.replicate 250 "x" ∧
    (∀ b ∈ chunksOf 100 (List.replicate 250 "x"), b.length ≤ 100) ∧
    (chunksOf 100 (List.replicate 250 "x")).length =
      ((List.replicate 250 "x").length + 100 - 1) / 100 ∧
    embed_texts (fun b => b.map (fun _ => List.replicate EMBED_DIM 0))
      (List.replicate 250 "x") 100 =
      .ok ((List.replicate 250 "x").map (fun _ => List.replicate EMBED_DIM 0)) ∧
    ((List.replicate 250 "x").length = 250 → 100 = 100 →
      (chunksOf 100 (List.replicate 250 "x")).map List.length = [100, 100, 50] ∧
      ((List.replicate 250 "x").map
        (fun _ => List.replicate EMBED_DIM 0)).length = 250) :=
  claim4_batch_boundary (fun _ => List.replicate EMBED_DIM 0)
    (List.replicate 250 "x") 100
    (by simp) (by omega) (fun _ => by rw [List.length_replicate])

/-- C7 (confirmed).  Embedding input validation and count guarantee:
`embed_texts` on the empty sequence fails with `InvalidInput`; every
successful call returns exactly one vector per input text; and when the
provider's total vector count differs from the number of texts the call
fails with `CountMismatch`. -/
theorem claim7_embed_validation (P : List String → List Vec)
    (ts : List String) (bs : Nat) :
    embed_texts P [] bs = .error .invalidInput ∧
    (∀ vs, embed_texts P ts bs = .ok vs → vs.length = ts.length) ∧
    (ts ≠ [] → ((chunksOf bs ts).flatMap P).length ≠ ts.length →
      embed_texts P ts bs = .error .countMismatch) :=
  ⟨embed_texts_nil P bs,
   fun vs h => embed_texts_ok_length P ts bs vs h,
   fun hne hc => embed_texts_countMismatch P ts bs hne hc⟩

/-- C7 witness: the empty input is rejected; a one-text call returning one
vector yields exactly one vector; a provider returning no vectors trips
`CountMismatch`. -/
theorem claim7_witness :
    embed_texts witnessProvider [] 100 = .error .invalidInput ∧
    ([List.replicate EMBED_DIM (0 : Int)] : List Vec).length =
      (["c"] : List String).length ∧
    embed_texts lossyProvider ["a"] 100 = .error .countMismatch :=
  ⟨(claim7_embed_validation witnessProvider ["c"] 100).1,
   (claim7_embed_validation witnessProvider ["c"] 100).2.1
     [List.replicate EMBED_DIM 0] witnessProvider_embed,
   (claim7_embed_validation lossyProvider ["a"] 100).2.2 (by simp) (by decide)⟩

/-- C3 (confirmed).  Empty-context fallback: when the search step returns no
contexts, the query pipeline answers with the fixed insufficient-context
string, an empty source list and zero contexts, and the result does not
depend on the generative model at all (it is never invoked). -/
theorem claim3_empty_context_fallback (P : List String → List Vec)
    (engine : Vec → Nat → List QPoint) (llm llm2 : String → String)
    (ev : QueryEvent) (q : String) (vs : List Vec)
    (hq : ev.question = some q) (hne : q ≠ "")
    (hemb : embed_texts P [q] 100 = .ok vs)
    (hctx : (QdrantStorage.search (engine (vs.headD []) ev.top_k)).contexts = []) :
    rag_query_pdf P engine llm ev = .ok (RAGQueryResult.mk fallbackAnswer [] 0) ∧
    rag_query_pdf P engine llm ev = rag_query_pdf P engine llm2 ev := by
  have main : ∀ g : String → String,
      rag_query_pdf P engine g ev = .ok (RAGQueryResult.mk fallbackAnswer [] 0) := by
    intro g
    unfold rag_query_pdf
    rw [hq]
    show (if q = "" then _ else _) = _
    rw [if_neg hne, hemb]
    show (if (QdrantStorage.search (engine (vs.headD []) ev.top_k)).contexts = []
      then _ else _) = _
    rw [if_pos hctx]
  exact ⟨main llm, (main llm).trans (main llm2).symm⟩

theorem witnessProvider_embed_q : embed_texts witnessProvider ["q"] 100 =
    .ok [List.replicate EMBED_DIM 0] :=
  embed_texts_positional (fun _ => List.replicate EMBED_DIM 0) ["q"] 100
    (by simp) (by omega) (fun _ => by rw [List.length_replicate])

/-- C3 witness: an engine returning no matches makes the query pipeline
return the canonical fallback, identically for two different generative
models. -/
theorem claim3_witness :
    rag_query_pdf witnessProvider emptyEngine llmA (QueryEvent.mk (some "q") 5) =
      .ok (RAGQueryResult.mk fallbackAnswer [] 0) ∧
    rag_query_pdf witnessProvider emptyEngine llmA (QueryEvent.mk (some "q") 5) =
      rag_query_pdf witnessProvider emptyEngine llmB (QueryEvent.mk (some "q") 5) :=
  claim3_empty_context_fallback witnessProvider emptyEngine llmA llmB
    (QueryEvent.mk (some "q") 5) "q" [List.replicate EMBED_DIM 0]
    rfl (by simp) witnessProvider_embed_q rfl

/-- C6 (confirmed).  Search result shape: when the engine returns at most
`top_k` matched points, `contexts` has at most `top_k` entries; a text
appears in `contexts` exactly when some matched point carries it as a truthy
`"text"` payload field, and a source appears in `sources` exactly when some
matched point carries it as a truthy `"source"` field (a point missing a
field is skipped for that field only); `sources` holds no duplicates. -/
theorem claim6_search_shape (points : List QPoint) (top_k : Nat)
    (hk : points.length ≤ top_k) :
    (QdrantStorage.search points).contexts.length ≤ top_k ∧
    (∀ t, t ∈ (QdrantStorage.search points).contexts ↔
      ∃ p ∈ points, truthy p.payload.text = some t) ∧
    (∀ s, s ∈ (QdrantStorage.search points).sources ↔
      ∃ p ∈ points, truthy p.payload.source = some s) ∧
    (QdrantStorage.search points).sources.Nodup := by
  refine ⟨?_, ?_, ?_, ?_⟩
  · exact Nat.le_trans (List.length_filterMap_le _ points) hk
  · intro t
    exact List.mem_filterMap
  · intro s
    rw [QdrantStorage.search]
    show s ∈ List.dedup _ ↔ _
    rw [List.mem_dedup]
    exact List.mem_filterMap
  · exact List.nodup_dedup _

/-- C6 witness: two matched points sharing a source, one lacking the text
field. -/
theorem claim6_witness :
    (QdrantStorage.search
      [QPoint.mk "i1" [] (Payload.mk (some "t1") (some "s1")),
       QPoint.mk "i2" [] (Payload.mk none (some "s1"))]).contexts.length ≤ 2 ∧
    (∀ t, t ∈ (QdrantStorage.search
      [QPoint.mk "i1" [] (Payload.mk (some "t1") (some "s1")),
       QPoint.mk "i2" [] (Payload.mk none (some "s1"))]).contexts ↔
      ∃ p ∈ [QPoint.mk "i1" [] (Payload.mk (some "t1") (some "s1")),
       QPoint.mk "i2" [] (Payload.mk none (some "s1"))],
        truthy p.payload.text = some t) ∧
    (∀ s, s ∈ (QdrantStorage.search
      [QPoint.mk "i1" [] (Payload.mk (some "t1") (some "s1")),
       QPoint.mk "i2" [] (Payload.mk none (some "s1"))]).sources ↔
      ∃ p ∈ [QPoint.mk "i1" [] (Payload.mk (some "t1") (some "s1")),
       QPoint.mk "i2" [] (Payload.mk none (some "s1"))],
        truthy p.payload.source = some s) ∧
    (QdrantStorage.search
      [QPoint.mk "i1" [] (Payload.mk (some "t1") (some "s1")),
       QPoint.mk "i2" [] (Payload.mk none (some "s1"))]).sources.Nodup :=
  claim6_search_shape
    [QPoint.mk "i1" [] (Payload.mk (some "t1") (some "s1")),
     QPoint.mk "i2" [] (Payload.mk none (some "s1"))] 2 (by decide)

/-- C9 (confirmed).  Implicit upsert precondition: `QdrantStorage.upsert`
indexes `vectors[i]` and `payloads[i]` for every `i < len(ids)`; when either
sequence is shorter than `ids` the call fails with an out-of-range indexing
error before any write reaches the engine, and when both are at least as
long as `ids` the point list is built and the write proceeds. -/
theorem claim9_upsert_precondition (st : Store) (ids : List String)
    (vectors : List Vec) (payloads : List Payload) :
    ((vectors.length < ids.length ∨ payloads.length < ids.length) →
      QdrantStorage.upsert st ids vectors payloads = none) ∧
    (ids.length ≤ vectors.length → ids.length ≤ payloads.length →
      ∃ st2, QdrantStorage.upsert st ids vectors payloads = some st2) := by
  constructor
  · intro h
    have hnone : buildPoints ids vectors payloads = none := by
      rcases h with h | h
      · apply mapM_option_eq_none _ _ vectors.length
          (List.mem_range.mpr h)
        rw [List.getElem?_eq_none (Nat.le_refl _)]
        rfl
      · apply mapM_option_eq_none _ _ payloads.length
          (List.mem_range.mpr h)
        cases hv : vectors[payloads.length]? with
        | none => rfl
        | some v =>
          show Option.bind payloads[payloads.length]? _ = none
          rw [List.getElem?_eq_none (Nat.le_refl _)]
          rfl
    rw [QdrantStorage.upsert, hnone]
    rfl
  · intro hv hp
    refine ⟨upsertPoints st ((List.range ids.length).map (fun i =>
      QPoint.mk (ids.getD i "") (vectors.getD i []) (payloads.getD i (Payload.mk none none)))), ?_⟩
    rw [QdrantStorage.upsert, buildPoints]
    rw [mapM_option_eq_map _ (fun i =>
      QPoint.mk (ids.getD i "") (vectors.getD i []) (payloads.getD i (Payload.mk none none)))]
    · rfl
    · intro i hi
      have hilt : i < ids.length := List.mem_range.mp hi
      rw [List.getElem?_eq_getElem (Nat.lt_of_lt_of_le hilt hv)]
      show (Option.bind (payloads[i]?) _) = _
      rw [List.getElem?_eq_getElem (Nat.lt_of_lt_of_le hilt hp)]
      show some _ = some _
      rw [List.getD_eq_getElem vectors [] (Nat.lt_of_lt_of_le hilt hv),
        List.getD_eq_getElem payloads _ (Nat.lt_of_lt_of_le hilt hp)]

/-- C9 witness: one id with no vectors fails before any write; one id with
one vector and one payload succeeds. -/
theorem claim9_witness :
    QdrantStorage.upsert [] ["a"] [] [] = none ∧
    ∃ st2, QdrantStorage.upsert [] ["a"] [[]] [Payload.mk none none] = some st2 :=
  ⟨(claim9_upsert_precondition [] ["a"] [] []).1 (by decide),
   (claim9_upsert_precondition [] ["a"] [[]] [Payload.mk none none]).2
     (by decide) (by decide)⟩

/-- C10 (confirmed).  Implicit question validation: an absent question and
an empty-string question are both falsy, so `rag_query_pdf` raises
`ValueError("Missing question")` before the embed-and-search step — the
result is this error for every provider, engine and generative model, so no
embedding or store call is made. -/
theorem claim10_question_validation (P : List String → List Vec)
    (engine : Vec → Nat → List QPoint) (llm : String → String)
    (ev : QueryEvent) (h : ev.question = none ∨ ev.question = some "") :
    rag_query_pdf P engine llm ev = .error .missingQuestion := by
  unfold rag_query_pdf
  rcases h with h | h
  · rw [h]
  · rw [h]
    show (if "" = "" then Except.error QueryErr.missingQuestion else _) = _
    rw [if_pos rfl]

/-- C10 witness: both the absent-question and the empty-question events are
rejected. -/
theorem claim10_witness :
    rag_query_pdf witnessProvider emptyEngine llmA (QueryEvent.mk none 5) =
      .error .missingQuestion ∧
    rag_query_pdf witnessProvider emptyEngine llmA (QueryEvent.mk (some "") 5) =
      .error .missingQuestion :=
  ⟨claim10_question_validation witnessProvider emptyEngine llmA
     (QueryEvent.mk none 5) (Or.inl rfl),
   claim10_question_validation witnessProvider emptyEngine llmA
     (QueryEvent.mk (some "") 5) (Or.inr rfl)⟩

/-- C8 counterexample: when the existence check saw the collection absent
but a concurrent creation won the race, `create_collection` replies
"already exists" — and `__init__` propagates that as a failure instead of
treating it as success (there is no try/except around `create_collection`
in `vectore_db.py`). -/
theorem claim8_counterexample :
    QdrantStorage.construct true false conflictCreate 3072 =
      .error (.createFailed .alreadyExists) ∧
    ¬ ∃ r, QdrantStorage.construct true false conflictCreate 3072 = .ok r := by
  have h : QdrantStorage.construct true false conflictCreate 3072 =
      .error (.createFailed .alreadyExists) := rfl
  refine ⟨h, ?_⟩
  rintro ⟨r, hr⟩
  rw [h] at hr
  exact absurd hr (by simp)

/-- C8 (corrected).  Store construction: reachability is verified first
(failing fast with `StoreUnreachable`), an existing collection is reused
as-is, and an absent collection is created with the requested dimension and
cosine distance — but an error reply from the creation call, including
"already exists" from losing a creation race, is propagated as a failure
rather than treated as success. -/
theorem claim8_store_construct (createResp : VectorParams → Except CreateErr Unit)
    (dim : Nat) :
    (∀ collExists, QdrantStorage.construct false collExists createResp dim =
      .error .storeUnreachable) ∧
    QdrantStorage.construct true true createResp dim = .ok none ∧
    (createResp (VectorParams.mk dim .cosine) = .ok () →
      QdrantStorage.construct true false createResp dim =
        .ok (some (VectorParams.mk dim .cosine))) ∧
    (∀ e, createResp (VectorParams.mk dim .cosine) = .error e →
      QdrantStorage.construct true false createResp dim =
        .error (.createFailed e)) := by
  refine ⟨fun _ => rfl, rfl, ?_, ?_⟩
  · intro h
    show (match createResp (VectorParams.mk dim .cosine) with
      | .ok _ => Except.ok (some (VectorParams.mk dim Distance.cosine))
      | .error e => Except.error (InitErr.createFailed e)) = _
    rw [h]
  · intro e h
    show (match createResp (VectorParams.mk dim .cosine) with
      | .ok _ => Except.ok (some (VectorParams.mk dim Distance.cosine))
      | .error e => Except.error (InitErr.createFailed e)) = _
    rw [h]

/-- C8 witness: unreachable engine fails fast; creation with cosine
parameters succeeds when the engine accepts; an "already exists" reply
propagates as failure. -/
theorem claim8_witness :
    QdrantStorage.construct false true conflictCreate 3072 =
      .error .storeUnreachable ∧
    QdrantStorage.construct true false okCreate 3072 =
      .ok (some (VectorParams.mk 3072 .cosine)) ∧
    QdrantStorage.construct true false conflictCreate 3072 =
      .error (.createFailed .alreadyExists) :=
  ⟨(claim8_store_construct conflictCreate 3072).1 true,
   (claim8_store_construct okCreate 3072).2.2.1 rfl,
   (claim8_store_construct conflictCreate 3072).2.2.2 .alreadyExists rfl⟩

/-- C5 counterexample: exact collision-freedom cannot hold for `deriveId`:
its id space is finite (16 bytes) while sources range over all strings, so
by pigeonhole some two distinct sources at offset 0 share an id — refuting
the universal "distinct sources at the same offset yield distinct ids"
(the spec itself notes collision-freedom is only probabilistic). -/
theorem claim5_counterexample :
    ¬ ∀ s1 s2 : String, s1 ≠ s2 → deriveId s1 0 ≠ deriveId s2 0 := by
  intro H
  have hid : ∀ a b : String, deriveId a 0 = deriveId b 0 → a = b := by
    intro a b hab
    by_contra hne
    exact H a b hne hab
  have hbytes : ∀ a b : String,
      uuid5Bytes (idName a 0) = uuid5Bytes (idName b 0) → a = b := by
    intro a b hab
    exact hid a b (by unfold deriveId; rw [hab])
  have henc : ∀ s : String, bytesToNat (uuid5Bytes (idName s 0)) < 256 ^ 16 := by
    intro s
    have h1 := bytesToNat_lt (uuid5Bytes (idName s 0))
      (fun x hx => uuid5Bytes_mem_lt (idName s 0) x hx)
    rwa [uuid5Bytes_length] at h1
  have hencinj : Function.Injective
      (fun s : String => (⟨bytesToNat (uuid5Bytes (idName s 0)), henc s⟩ :
        Fin (256 ^ 16))) := by
    intro a b hab
    simp only [Fin.mk.injEq] at hab
    exact hbytes a b (bytesToNat_inj _ _
      (by rw [uuid5Bytes_length, uuid5Bytes_length])
      (fun x hx => uuid5Bytes_mem_lt (idName a 0) x hx)
      (fun x hx => uuid5Bytes_mem_lt (idName b 0) x hx) hab)
  have hfin : Finite String := Finite.of_injective _ hencinj
  exact not_finite String

/-- C5 (corrected).  Deterministic identity: `deriveId` is a pure function
of `(source_id, offset)` — repeated calls agree and nothing else (time,
process state) enters the derivation — and distinct offsets of the same
source, like distinct sources at the same offset, hash distinct name
strings `source_id ++ ":" ++ offset`; distinctness of the ids themselves
holds whenever the finite-range uuid5 hash does not collide on those names,
which cannot be exact (see the counterexample). -/
theorem claim5_deterministic_identity (s1 s2 : String) (k j : Nat) :
    deriveId s1 k = deriveId s1 k ∧
    (k ≠ j → idName s1 k ≠ idName s1 j) ∧
    (s1 ≠ s2 → idName s1 k ≠ idName s2 k) :=
  ⟨rfl, idName_ne_of_offset_ne s1 k j, idName_ne_of_source_ne s1 s2 k⟩

/-- C5 witness: offsets 0 and 1 of source `"a"`, and sources `"a"`, `"b"`
at offset 0, give distinct names. -/
theorem claim5_witness :
    deriveId "a" 0 = deriveId "a" 0 ∧
    idName "a" 0 ≠ idName "a" 1 ∧ idName "a" 0 ≠ idName "b" 0 :=
  ⟨(claim5_deterministic_identity "a" "b" 0 1).1,
   (claim5_deterministic_identity "a" "b" 0 1).2.1 (by decide),
   (claim5_deterministic_identity "a" "b" 0 1).2.2 (by decide)⟩

end RAG
